import Mathlib

/-!
# Rigid transforms SE(3) = SO(3) ⋉ R³ (`src/include/se3.h`)

A shallow embedding of the class template `Spatial::SE3<T>`.

* The scalar type `T` is a type `α` that carries the operations the source
  uses (`0`, `1`, `+`, `-`, `*`, `/`, numerals, `==`) and no laws. It is
  instantiated in two ways: with a field (exact arithmetic, `==` decided by
  equality), and with `Flt binary32`, `Flt binary64`, the arithmetic of
  `float` and `double` (every operation rounded on its own to nearest, ties
  to even, gradual underflow, overflow to infinity, NaN unequal to itself).
* `Eigen::Matrix<T, 3, 1>`, `Eigen::Matrix<T, 3, 3>`, `Eigen::Matrix<T, 4, 4>`
  and `Eigen::Matrix<T, 3, Dynamic>` are `Fin 3 → α` and `Matrix (Fin m) (Fin n) α`;
  Eigen's entrywise `+`, `-`, scalar `*`, `.transpose()`, `Identity()`,
  `Zero()` are the corresponding entrywise operations. Eigen's products of a
  3×3 matrix with a 3×3 matrix or a 3-vector are `mat3Mul` and `mat3MulVec`,
  which add the three products of a row and a column from left to right.
* `sin` and `cos` of `<cmath>` are parameters of `Rotation`.
* The mutating `operator*=` acts on a store of objects, so that the
  receiver and the argument may or may not be the same object.
* The batch operators take the content of `res` after `resize` as an
  argument, since the source leaves it uninitialised.
* The scenarios of `src/transform/test.cpp` are `compositionScenario` and
  `compositionCheck`.
-/

open Matrix

/-- The alias `vec3<T>` (se3.h:8). -/
abbrev vec3 (α : Type) : Type := Fin 3 → α

/-- The alias `mat3<T>` (se3.h:9). -/
abbrev mat3 (α : Type) : Type := Matrix (Fin 3) (Fin 3) α

/-- The alias `mat4<T>` (se3.h:10). -/
abbrev mat4 (α : Type) : Type := Matrix (Fin 4) (Fin 4) α

/-- The alias `mat3x<T>` (se3.h:11), with the run-time column count `n`. -/
abbrev mat3x (α : Type) (n : Nat) : Type := Matrix (Fin 3) (Fin n) α

namespace Spatial

variable {α : Type}

/-! ## The host linear algebra -/

/-- The product of a row and a column of length 3, as Eigen computes a
coefficient of a product: the three products are added from left to right. -/
def dot3 [Add α] [Mul α] (a b : vec3 α) : α :=
  a 0 * b 0 + a 1 * b 1 + a 2 * b 2

/-- Eigen's product of two 3×3 matrices. -/
def mat3Mul [Add α] [Mul α] (A B : mat3 α) : mat3 α :=
  Matrix.of fun i j => dot3 (A i) (fun k => B k j)

/-- Eigen's product of a 3×3 matrix and a 3-vector. -/
def mat3MulVec [Add α] [Mul α] (A : mat3 α) (v : vec3 α) : vec3 α :=
  fun i => dot3 (A i) v

/-- Eigen's `operator==` on 3-vectors: every pair of coefficients compares
equal with the `==` of the scalar type. -/
def vec3Eq [BEq α] (a b : vec3 α) : Bool :=
  a 0 == b 0 && a 1 == b 1 && a 2 == b 2

/-! ## The scalar types `float` and `double` -/

/-- A binary floating-point format: `prec` significand bits, finite values
below `2 ^ emax` in magnitude, multiples of `2 ^ (3 - emax - prec)`. -/
structure Format where
  prec : Nat
  emax : Int
deriving DecidableEq

/-- The format of `float`. -/
def binary32 : Format := { prec := 24, emax := 128 }

/-- The format of `double`. -/
def binary64 : Format := { prec := 53, emax := 1024 }

/-- The values of a floating-point type: `fin m e` is the number `m · 2 ^ e`
(kept with `m` odd, or `m = 0` and `e = 0`, so that equal numbers are equal
terms), the two infinities, and one NaN. The two signed zeros are not
distinguished: they compare equal and the source never divides by a
variable. -/
inductive Flt (f : Format) : Type where
  | fin (m : Int) (e : Int)
  | inf (negative : Bool)
  | nan
deriving DecidableEq

namespace Flt

variable {f : Format}

/-- The number of binary digits of `n` (given enough fuel). -/
def bitLen : Nat → Nat → Nat
  | 0, _ => 0
  | fuel + 1, n => if n = 0 then 0 else bitLen fuel (n / 2) + 1

/-- The pair `(q, e)` with the trailing zero bits of `q` moved into the
exponent `e`. -/
def stripZeros : Nat → Nat → Int → Nat × Int
  | 0, q, e => (q, e)
  | fuel + 1, q, e => if q % 2 = 0 ∧ q ≠ 0 then stripZeros fuel (q / 2) (e + 1) else (q, e)

/-- The number `± (n / d) · 2 ^ x` rounded to the format: to the nearest
multiple of the unit in the last place `2 ^ E`, ties to the even multiple,
and to an infinity when the result reaches `2 ^ emax`. -/
def round (f : Format) (negative : Bool) (n d : Nat) (x : Int) : Flt f :=
  if n = 0 ∨ d = 0 then fin 0 0
  else
    let ex : Int := (bitLen 4096 n : Int) - (bitLen 4096 d : Int)
    let lg : Int := if d * 2 ^ ex.toNat ≤ n * 2 ^ (-ex).toNat then ex else ex - 1
    let E : Int := max (lg + x - ((f.prec : Int) - 1)) (3 - f.emax - (f.prec : Int))
    let N : Nat := n * 2 ^ (x - E).toNat
    let D : Nat := d * 2 ^ (E - x).toNat
    let q : Nat := N / D
    let r : Nat := N % D
    let q1 : Nat := if D < 2 * r ∨ (2 * r = D ∧ q % 2 = 1) then q + 1 else q
    if f.emax < (bitLen 4096 q1 : Int) + E then inf negative
    else
      let s := stripZeros (f.prec + 1) q1 E
      if s.1 = 0 then fin 0 0
      else fin (if negative then -(s.1 : Int) else (s.1 : Int)) s.2

/-- The number `m · 2 ^ e` rounded to the format. -/
def ofDyadic (f : Format) (m : Int) (e : Int) : Flt f :=
  round f (decide (m < 0)) m.natAbs 1 e

/-- Unary minus. -/
def neg : Flt f → Flt f
  | fin m e => fin (-m) e
  | inf b => inf (!b)
  | nan => nan

/-- Addition: the exact sum, rounded. -/
def add : Flt f → Flt f → Flt f
  | fin m1 e1, fin m2 e2 =>
    ofDyadic f (m1 * 2 ^ (e1 - min e1 e2).toNat + m2 * 2 ^ (e2 - min e1 e2).toNat) (min e1 e2)
  | fin _ _, inf b => inf b
  | inf b, fin _ _ => inf b
  | inf a, inf b => if a = b then inf a else nan
  | _, _ => nan

/-- Multiplication: the exact product, rounded; `0 · ∞` is NaN. -/
def mul : Flt f → Flt f → Flt f
  | fin m1 e1, fin m2 e2 => ofDyadic f (m1 * m2) (e1 + e2)
  | fin m _, inf b => if m = 0 then nan else inf (decide (m < 0) != b)
  | inf b, fin m _ => if m = 0 then nan else inf (decide (m < 0) != b)
  | inf a, inf b => inf (a != b)
  | _, _ => nan

/-- Division: the exact quotient, rounded. -/
def div : Flt f → Flt f → Flt f
  | fin m1 e1, fin m2 e2 =>
    if m2 = 0 then (if m1 = 0 then nan else inf (decide (m1 < 0)))
    else round f (decide (m1 < 0) != decide (m2 < 0)) m1.natAbs m2.natAbs (e1 - e2)
  | fin _ _, inf _ => fin 0 0
  | inf b, fin m _ => inf (decide (m < 0) != b)
  | _, _ => nan

/-- The comparison `==`: NaN is equal to nothing, itself included. -/
def beq : Flt f → Flt f → Bool
  | nan, _ => false
  | _, nan => false
  | a, b => decide (a = b)

/-- The conversion of a `double` to the format (the identity on `double`). -/
def ofDouble (f : Format) : Flt binary64 → Flt f
  | fin m e => ofDyadic f m e
  | inf b => inf b
  | nan => nan

/-- The rational number that a finite value stands for (0 for the others). -/
def toRat : Flt f → ℚ
  | fin m e => (m : ℚ) * (2 : ℚ) ^ e
  | _ => 0

end Flt

instance instZeroFlt {f : Format} : Zero (Flt f) := ⟨Flt.fin 0 0⟩

instance instOneFlt {f : Format} : One (Flt f) := ⟨Flt.fin 1 0⟩

instance instAddFlt {f : Format} : Add (Flt f) := ⟨Flt.add⟩

instance instNegFlt {f : Format} : Neg (Flt f) := ⟨Flt.neg⟩

instance instSubFlt {f : Format} : Sub (Flt f) := ⟨fun a b => Flt.add a (Flt.neg b)⟩

instance instMulFlt {f : Format} : Mul (Flt f) := ⟨Flt.mul⟩

instance instDivFlt {f : Format} : Div (Flt f) := ⟨Flt.div⟩

instance instBEqFlt {f : Format} : BEq (Flt f) := ⟨Flt.beq⟩

/-- The conversion `(T)n` of an integer literal. -/
instance instNatCastFlt {f : Format} : NatCast (Flt f) := ⟨fun n => Flt.round f false n 1 0⟩

/-- The conversion `(T)x` of a decimal literal `x`: the literal is a
`double`, which is then converted to `T`. -/
instance instOfScientificFlt {f : Format} : OfScientific (Flt f) :=
  ⟨fun m s e => Flt.ofDouble f
    (if s then Flt.round binary64 false m (10 ^ e) 0
      else Flt.round binary64 false (m * 10 ^ e) 1 0)⟩

/-! ## The class `SE3<T>` -/

/-- The function `radian` (se3.h:15-19): degrees to radians with the literal
constant of the source. -/
def radian [Mul α] [Div α] [NatCast α] [OfScientific α] (a : α) : α :=
  (a * (3.1415926535897932 : α)) / (180 : α)

/-- The class `SE3<T>` (se3.h:23-28): the data members `rot_` and `trans_`.
The structure constructor is the protected `SE3(const mat3<T>& r, const vec3<T>& t)`
(se3.h:30-33). -/
@[ext]
structure SE3 (α : Type) where
  rot_ : mat3 α
  trans_ : vec3 α

namespace SE3

/-- The protected constructor `SE3(const mat3<T>& r)` (se3.h:35-38). -/
def ofRot [Zero α] (r : mat3 α) : SE3 α :=
  { rot_ := r, trans_ := 0 }

/-- The protected constructor `SE3(const vec3<T>& t)` (se3.h:40-43). -/
def ofTrans [Zero α] [One α] (t : vec3 α) : SE3 α :=
  { rot_ := 1, trans_ := t }

/-- The default constructor `SE3()` (se3.h:46-49); the spec calls its value
`Identity()`. -/
def Identity [Zero α] [One α] : SE3 α :=
  { rot_ := 1, trans_ := 0 }

/-- The accessor `GetRotation` (se3.h:63-66). -/
def GetRotation (t : SE3 α) : mat3 α := t.rot_

/-- The accessor `GetTranslation` (se3.h:68-71). -/
def GetTranslation (t : SE3 α) : vec3 α := t.trans_

/-- The export `GetMatrix` (se3.h:73-83). -/
def GetMatrix [Zero α] [One α] (t : SE3 α) : mat4 α :=
  !![t.rot_ 0 0, t.rot_ 0 1, t.rot_ 0 2, t.trans_ 0;
     t.rot_ 1 0, t.rot_ 1 1, t.rot_ 1 2, t.trans_ 1;
     t.rot_ 2 0, t.rot_ 2 1, t.rot_ 2 2, t.trans_ 2;
     0, 0, 0, 1]

/-- The sine/cosine pair `(s, c)` chosen in `Rotation` (se3.h:94-122): exact
equality tests against 0, 90, 180, 270 in this order, the library functions
on `radian phi` otherwise. -/
def sinCos [Zero α] [One α] [Neg α] [Mul α] [Div α] [NatCast α] [OfScientific α] [BEq α]
    (sin cos : α → α) (phi : α) : α × α :=
  if phi == 0 then (0, 1)
  else if phi == 90 then (1, 0)
  else if phi == 180 then (0, -1)
  else if phi == 270 then (-1, 0)
  else (sin (radian phi), cos (radian phi))

/-- The factory `Rotation` (se3.h:85-134). -/
def Rotation [Zero α] [One α] [Add α] [Sub α] [Neg α] [Mul α] [Div α] [NatCast α]
    [OfScientific α] [BEq α] (sin cos : α → α) (u : vec3 α) (phi : α) : SE3 α :=
  let s : α := (sinCos sin cos phi).1
  let c : α := (sinCos sin cos phi).2
  let uut : mat3 α := vecMulVec u u
  let U : mat3 α :=
    !![0, -u 2, u 1;
       u 2, 0, -u 0;
       -u 1, u 0, 0]
  let r : mat3 α := uut + c • (1 - uut) + s • U
  ofRot r

/-- The factory `Translation` (se3.h:136-141) with both arguments given. -/
def Translation [Zero α] [One α] [Mul α] (axis : vec3 α) (dist : α) : SE3 α :=
  let t : vec3 α := dist • axis
  ofTrans t

/-- The function `Invert` (se3.h:143-151). -/
def Invert [Add α] [Mul α] [Neg α] (t : SE3 α) : SE3 α :=
  let rot : mat3 α := t.rot_ᵀ
  let trans : vec3 α := -(mat3MulVec rot t.trans_)
  { rot_ := rot, trans_ := trans }

/-- The composition `operator*(const SE3<T>&)` (se3.h:153-159). -/
def opMul [Add α] [Mul α] (self other : SE3 α) : SE3 α :=
  let trans2 : vec3 α := mat3MulVec self.rot_ other.trans_ + self.trans_
  let rot2 : mat3 α := mat3Mul self.rot_ other.rot_
  { rot_ := rot2, trans_ := trans2 }

/-- The in-place composition `operator*=` (se3.h:161-168) on a store `σ` of
objects: `self` is the receiver, `other` the argument (possibly the same
object). The two assignments run in the order of the source, each reading
the store as it is at that point; the result is the final store and the
returned copy of `*this`. -/
def opMulAssign [Add α] [Mul α] {ι : Type} [DecidableEq ι] (σ : ι → SE3 α) (self other : ι) :
    (ι → SE3 α) × SE3 α :=
  let σ1 : ι → SE3 α :=
    Function.update σ self
      { σ self with trans_ := mat3MulVec (σ self).rot_ (σ other).trans_ + (σ self).trans_ }
  let σ2 : ι → SE3 α :=
    Function.update σ1 self
      { σ1 self with rot_ := mat3Mul (σ1 self).rot_ (σ1 other).rot_ }
  (σ2, σ2 self)

/-- The vector operator `operator*(const vec3<T>&)` (se3.h:198-202). -/
def opMulVec [Add α] [Mul α] (self : SE3 α) (v : vec3 α) : vec3 α :=
  let u : vec3 α := mat3MulVec self.rot_ v
  u

/-- The point operator `operator^(const vec3<T>&)` (se3.h:204-208). -/
def opXorVec [Add α] [Mul α] (self : SE3 α) (p : vec3 α) : vec3 α :=
  let q : vec3 α := mat3MulVec self.rot_ p + self.trans_
  q

/-- The batch vector operator `operator*(const mat3x<T>&)` (se3.h:170-182).
`res0` is the content of `res` after `resize` (not initialised by the
source); the loop visits the columns `0, 1, ..., n - 1` in this order. -/
def opMulCols [Add α] [Mul α] {n : Nat} (self : SE3 α) (cols res0 : mat3x α n) : mat3x α n :=
  (List.finRange n).foldl
    (fun res idx => res.updateColumn idx (opMulVec self (fun i => cols i idx))) res0

/-- The batch point operator `operator^(const mat3x<T>&)` (se3.h:184-196).
`res0` is the content of `res` after `resize` (not initialised by the
source); the loop visits the columns `0, 1, ..., n - 1` in this order. -/
def opXorCols [Add α] [Mul α] {n : Nat} (self : SE3 α) (cols res0 : mat3x α n) : mat3x α n :=
  (List.finRange n).foldl
    (fun res idx => res.updateColumn idx (opXorVec self (fun i => cols i idx))) res0

/-- Equality of transforms is decidable when equality of scalars is. -/
instance instDecidableEqSE3 [DecidableEq α] : DecidableEq (SE3 α) := fun a b =>
  decidable_of_iff (a.rot_ = b.rot_ ∧ a.trans_ = b.trans_) SE3.ext_iff.symm

/-- A stand-in for `sin` and `cos` where only the literal angles 0, 90, 180,
270 are used: `Rotation` does not call the library functions for them. -/
def unusedTrig {f : Format} : Flt f → Flt f := fun _ => Flt.nan

/-- The data-model invariant of the spec (section 3), read in exact
arithmetic: the rotation block is proper orthogonal, `rotation · rotationᵗ = I`
and `det rotation = +1`. -/
def ProperOrthogonal [Field α] (t : SE3 α) : Prop :=
  t.rot_ * t.rot_ᵀ = 1 ∧ t.rot_.det = 1

/-- The invariant is a decidable predicate when equality of scalars is. -/
instance instDecidableProperOrthogonal [Field α] [DecidableEq α] (t : SE3 α) :
    Decidable (ProperOrthogonal t) := by
  unfold ProperOrthogonal
  infer_instance

/-- A sample transform over the rationals: the quarter turn about the z
axis followed by the translation `(1, 2, 3)`. -/
def quarterTurnZ : SE3 ℚ :=
  { rot_ := !![0, -1, 0; 1, 0, 0; 0, 0, 1], trans_ := ![1, 2, 3] }

/-- A sample transform over the rationals: the half turn about the z axis
followed by the translation `(1, 2, 3)`. -/
def halfTurnZ : SE3 ℚ :=
  { rot_ := !![-1, 0, 0; 0, -1, 0; 0, 0, 1], trans_ := ![1, 2, 3] }

/-- The variant of `Invert` that the comment at se3.h:145-146 describes: the
same computation with `t.rot_` taken in place of `t.rot_.transpose()`. It is
not code of the source; it is what `Invert` is compared with. -/
def InvertWithoutTranspose [Add α] [Mul α] [Neg α] (t : SE3 α) : SE3 α :=
  let rot : mat3 α := t.rot_
  let trans : vec3 α := -(mat3MulVec rot t.trans_)
  { rot_ := rot, trans_ := trans }

/-- The vector `vec3f::UnitX()` of the test (test.cpp). -/
def UnitX [Zero α] [One α] : vec3 α := ![1, 0, 0]

/-- The vector `vec3f::UnitY()` of the test (test.cpp). -/
def UnitY [Zero α] [One α] : vec3 α := ![0, 1, 0]

/-- The vector `vec3f::UnitZ()` of the test (test.cpp). -/
def UnitZ [Zero α] [One α] : vec3 α := ![0, 0, 1]

/-- One scenario of the test case "Composition rotation/translation"
(test.cpp:18-21, repeated at 23-26, ..., 64-67) for a rotation axis `u`, an
angle, a translation axis `d` and a distance `delta`: `T` is set to
`Rotation(u, angle)`, then `T *= Translation(d, delta)` runs with the
temporary as argument, then `s = T.GetRotation() * (d * delta)`. The result
is the final `T` and `s`; the test checks `s == T.GetTranslation()`. In the
store, `false` is the object `T` and `true` the temporary. -/
def compositionScenario [Zero α] [One α] [Add α] [Sub α] [Neg α] [Mul α] [Div α] [NatCast α]
    [OfScientific α] [BEq α] (sin cos : α → α) (u : vec3 α) (angle : α)
    (d : vec3 α) (delta : α) : SE3 α × vec3 α :=
  let σ : Bool → SE3 α := fun k => if k then Translation d delta else Rotation sin cos u angle
  let T : SE3 α := (opMulAssign σ false true).1 false
  let s : vec3 α := mat3MulVec (GetRotation T) (fun i => d i * delta)
  (T, s)

/-- The `CHECK` of a scenario of the test (test.cpp:21): `s == T.GetTranslation()`
with the `==` of the scalar type. -/
def compositionCheck [Zero α] [One α] [Add α] [Sub α] [Neg α] [Mul α] [Div α] [NatCast α]
    [OfScientific α] [BEq α] (sin cos : α → α) (u : vec3 α) (angle : α)
    (d : vec3 α) (delta : α) : Bool :=
  vec3Eq (compositionScenario sin cos u angle d delta).2
    (GetTranslation (compositionScenario sin cos u angle d delta).1)

/-- The transform whose entries are the exact rational values of the entries
of a floating-point transform. -/
def exactValue {f : Format} (t : SE3 (Flt f)) : SE3 ℚ :=
  { rot_ := Matrix.of fun i j => Flt.toRat (t.rot_ i j), trans_ := fun i => Flt.toRat (t.trans_ i) }

/-- A sample axis in `double`: the doubles nearest to 0.6, 0.8 and 0. The
computed `u·u` is 1. -/
def axis0608 : vec3 (Flt binary64) := ![0.6, 0.8, 0]

/-- A sample axis in `double`: the doubles nearest to 0.8, 0.6 and 0. The
computed `u·u` is 1. -/
def axis0806 : vec3 (Flt binary64) := ![0.8, 0.6, 0]

/-- A sample axis in `double`: the doubles nearest to 0.28, 0.96 and 0. The
computed `u·u` is 1. -/
def axis028096 : vec3 (Flt binary64) := ![0.28, 0.96, 0]

/-- A sample transform in `double`, built by the factories: the half turn
about `axis028096` followed by the translation `(3, 5, 0)`. -/
def doubleHalfTurn : SE3 (Flt binary64) :=
  opMul (Translation ![3, 5, 0] 1) (Rotation unusedTrig unusedTrig axis028096 180)

/-- A sample transform in `float`: the translation by `3.0e38` along `UnitX`. -/
def floatFarTranslation : SE3 (Flt binary32) :=
  Translation UnitX 3.0e38

/-- A sample transform in `double`: the translation by `2 ^ 53` along `UnitX`. -/
def doubleFarTranslation : SE3 (Flt binary64) :=
  Translation UnitX 9007199254740992

/-! ## Exact arithmetic: the host products are the matrix products -/

section Exact

variable [Field α]

/-- In exact arithmetic `dot3` is the dot product. -/
theorem dot3_eq_dotProduct (a b : vec3 α) : dot3 a b = a ⬝ᵥ b := by
  simp only [dot3, Matrix.vec3_dotProduct]

/-- In exact arithmetic `mat3Mul` is the matrix product. -/
theorem mat3Mul_eq_mul (A B : mat3 α) : mat3Mul A B = A * B := by
  ext i j
  simp only [mat3Mul, dot3, Matrix.of_apply, Matrix.mul_apply, Fin.sum_univ_three]

/-- In exact arithmetic `mat3MulVec` is the product of a matrix and a vector. -/
theorem mat3MulVec_eq_mulVec (A : mat3 α) (v : vec3 α) : mat3MulVec A v = A *ᵥ v := by
  ext i
  simp only [mat3MulVec, dot3, Matrix.mulVec, dotProduct, Fin.sum_univ_three]

/-- With `==` decided by equality, `vec3Eq` is equality of vectors. -/
theorem vec3Eq_iff_eq {β : Type} [DecidableEq β] (a b : vec3 β) : vec3Eq a b = true ↔ a = b := by
  simp only [vec3Eq, Bool.and_eq_true, beq_iff_eq]
  constructor
  · rintro ⟨⟨h0, h1⟩, h2⟩
    funext i
    fin_cases i
    · exact h0
    · exact h1
    · exact h2
  · intro h
    subst h
    exact ⟨⟨rfl, rfl⟩, rfl⟩

/-- In exact arithmetic the rotation block of `a * b`. -/
theorem opMul_rot_ (a b : SE3 α) : (opMul a b).rot_ = a.rot_ * b.rot_ :=
  mat3Mul_eq_mul a.rot_ b.rot_

/-- In exact arithmetic the translation of `a * b`. -/
theorem opMul_trans_ (a b : SE3 α) : (opMul a b).trans_ = a.rot_ *ᵥ b.trans_ + a.trans_ := by
  simp only [opMul, mat3MulVec_eq_mulVec]

/-- In exact arithmetic the translation of `Invert t`. -/
theorem Invert_trans_ (t : SE3 α) : (Invert t).trans_ = -(t.rot_ᵀ *ᵥ t.trans_) := by
  simp only [Invert, mat3MulVec_eq_mulVec]

/-- In exact arithmetic the vector operator. -/
theorem opMulVec_eq (t : SE3 α) (v : vec3 α) : opMulVec t v = t.rot_ *ᵥ v :=
  mat3MulVec_eq_mulVec t.rot_ v

/-- In exact arithmetic the point operator. -/
theorem opXorVec_eq (t : SE3 α) (p : vec3 α) : opXorVec t p = t.rot_ *ᵥ p + t.trans_ := by
  simp only [opXorVec, mat3MulVec_eq_mulVec]

end Exact

/-! ## The branches of `Rotation` in any arithmetic -/

/-- The pair chosen when `phi == 0` holds. -/
theorem sinCos_of_zero [Zero α] [One α] [Neg α] [Mul α] [Div α] [NatCast α] [OfScientific α] [BEq α]
    (sin cos : α → α) (phi : α) (h0 : (phi == 0) = true) :
    sinCos sin cos phi = (0, 1) := by
  simp only [sinCos, h0, if_true]

/-- The pair chosen when `phi == 90` is the first test to hold. -/
theorem sinCos_of_ninety [Zero α] [One α] [Neg α] [Mul α] [Div α] [NatCast α] [OfScientific α] [BEq α]
    (sin cos : α → α) (phi : α) (h0 : (phi == 0) = false) (h1 : (phi == 90) = true) :
    sinCos sin cos phi = (1, 0) := by
  simp only [sinCos, h0, h1, if_true, Bool.false_eq_true, if_false]

/-- The pair chosen when `phi == 180` is the first test to hold. -/
theorem sinCos_of_oneEighty [Zero α] [One α] [Neg α] [Mul α] [Div α] [NatCast α] [OfScientific α] [BEq α]
    (sin cos : α → α) (phi : α) (h0 : (phi == 0) = false) (h1 : (phi == 90) = false)
    (h2 : (phi == 180) = true) : sinCos sin cos phi = (0, -1) := by
  simp only [sinCos, h0, h1, h2, if_true, Bool.false_eq_true, if_false]

/-- The pair chosen when `phi == 270` is the first test to hold. -/
theorem sinCos_of_twoSeventy [Zero α] [One α] [Neg α] [Mul α] [Div α] [NatCast α] [OfScientific α] [BEq α]
    (sin cos : α → α) (phi : α) (h0 : (phi == 0) = false) (h1 : (phi == 90) = false)
    (h2 : (phi == 180) = false) (h3 : (phi == 270) = true) :
    sinCos sin cos phi = (-1, 0) := by
  simp only [sinCos, h0, h1, h2, h3, if_true, Bool.false_eq_true, if_false]

/-- The pair chosen when none of the four tests holds. -/
theorem sinCos_of_other [Zero α] [One α] [Neg α] [Mul α] [Div α] [NatCast α] [OfScientific α] [BEq α]
    (sin cos : α → α) (phi : α) (h0 : (phi == 0) = false) (h1 : (phi == 90) = false)
    (h2 : (phi == 180) = false) (h3 : (phi == 270) = false) :
    sinCos sin cos phi
      = (sin (phi * (3.1415926535897932 : α) / 180),
          cos (phi * (3.1415926535897932 : α) / 180)) := by
  simp only [sinCos, h0, h1, h2, h3, Bool.false_eq_true, if_false, radian]

/-- The factory depends on the library functions through the chosen pair only. -/
theorem Rotation_congr [Zero α] [One α] [Add α] [Sub α] [Neg α] [Mul α] [Div α] [NatCast α] [OfScientific α]
    [BEq α]
    (sin cos sin2 cos2 : α → α) (u : vec3 α) (phi : α)
    (h : sinCos sin cos phi = sinCos sin2 cos2 phi) :
    Rotation sin cos u phi = Rotation sin2 cos2 u phi := by
  simp only [Rotation, h]

/-- The test scenario depends on the library functions through the chosen
pair only. -/
theorem compositionCheck_congr [Zero α] [One α] [Add α] [Sub α] [Neg α] [Mul α] [Div α] [NatCast α] [OfScientific α]
    [BEq α]
    (sin cos sin2 cos2 : α → α) (u : vec3 α) (phi : α) (d : vec3 α) (delta : α)
    (h : sinCos sin cos phi = sinCos sin2 cos2 phi) :
    compositionCheck sin cos u phi d delta = compositionCheck sin2 cos2 u phi d delta := by
  simp only [compositionCheck, compositionScenario, Rotation_congr sin cos sin2 cos2 u phi h]

/-- In `float` the angles 0, 90, 180, 270 take the four literal branches. -/
theorem sinCos_literal_float (sin cos : Flt binary32 → Flt binary32) :
    sinCos sin cos 0 = (0, 1) ∧ sinCos sin cos 90 = (1, 0) ∧
    sinCos sin cos 180 = (0, -1) ∧ sinCos sin cos 270 = (-1, 0) :=
  ⟨sinCos_of_zero sin cos 0 (by decide!),
    sinCos_of_ninety sin cos 90 (by decide!) (by decide!),
    sinCos_of_oneEighty sin cos 180 (by decide!) (by decide!) (by decide!),
    sinCos_of_twoSeventy sin cos 270 (by decide!) (by decide!) (by decide!) (by decide!)⟩

/-- In `double` the angles 0, 90, 180, 270 take the four literal branches. -/
theorem sinCos_literal_double (sin cos : Flt binary64 → Flt binary64) :
    sinCos sin cos 0 = (0, 1) ∧ sinCos sin cos 90 = (1, 0) ∧
    sinCos sin cos 180 = (0, -1) ∧ sinCos sin cos 270 = (-1, 0) :=
  ⟨sinCos_of_zero sin cos 0 (by decide!),
    sinCos_of_ninety sin cos 90 (by decide!) (by decide!),
    sinCos_of_oneEighty sin cos 180 (by decide!) (by decide!) (by decide!),
    sinCos_of_twoSeventy sin cos 270 (by decide!) (by decide!) (by decide!) (by decide!)⟩

/-- The nine scenarios of the test pass in `float`. -/
theorem compositionCheck_float (sin cos : Flt binary32 → Flt binary32) :
    ∀ u ∈ [(UnitX : vec3 (Flt binary32)), UnitY, UnitZ],
      ∀ d ∈ [(UnitX : vec3 (Flt binary32)), UnitY, UnitZ],
        compositionCheck sin cos u 90 d 4 = true := by
  have h : sinCos sin cos (90 : Flt binary32) = sinCos unusedTrig unusedTrig 90 := by
    rw [(sinCos_literal_float sin cos).2.1, (sinCos_literal_float unusedTrig unusedTrig).2.1]
  have hall : ∀ u ∈ [(UnitX : vec3 (Flt binary32)), UnitY, UnitZ],
      ∀ d ∈ [(UnitX : vec3 (Flt binary32)), UnitY, UnitZ],
        compositionCheck unusedTrig unusedTrig u 90 d 4 = true := by decide!
  intro u hu d hd
  rw [compositionCheck_congr sin cos unusedTrig unusedTrig u 90 d 4 h]
  exact hall u hu d hd

/-! ## Composition, identity, inverse -/

section Group

variable [Field α]

/-- C1: `a * b` has rotation `a.rot_ · b.rot_` and translation
`a.rot_ · b.trans_ + a.trans_`; on a point it acts as `b` first, then `a`,
and likewise on a free vector. -/
theorem opMul_components_and_action (a b : SE3 α) :
    (opMul a b).rot_ = a.rot_ * b.rot_ ∧
    (opMul a b).trans_ = a.rot_ *ᵥ b.trans_ + a.trans_ ∧
    (∀ p : vec3 α, opXorVec (opMul a b) p = opXorVec a (opXorVec b p)) ∧
    (∀ v : vec3 α, opMulVec (opMul a b) v = opMulVec a (opMulVec b v)) := by
  refine ⟨opMul_rot_ a b, opMul_trans_ a b, ?_, ?_⟩
  · intro p
    simp only [mat3Mul_eq_mul, mat3MulVec_eq_mulVec, opMul, opXorVec, Matrix.mulVec_add,
      Matrix.mulVec_mulVec, add_assoc]
  · intro v
    simp only [mat3Mul_eq_mul, mat3MulVec_eq_mulVec, opMul, opMulVec, Matrix.mulVec_mulVec]

/-- C2 (amended): in exact arithmetic, for a transform `t` with orthogonal
rotation, `Invert t` has rotation `t.rot_ᵗ` and translation
`-(t.rot_ᵗ · t.trans_)`, and it is a two-sided inverse: `t * Invert t` and
`Invert t * t` are both the identity transform. -/
theorem opMul_Invert_eq_Identity (t : SE3 α) (h : t.rot_ * t.rot_ᵀ = 1) :
    (Invert t).rot_ = t.rot_ᵀ ∧
    (Invert t).trans_ = -(t.rot_ᵀ *ᵥ t.trans_) ∧
    opMul t (Invert t) = Identity ∧
    opMul (Invert t) t = Identity := by
  have h2 : t.rot_ᵀ * t.rot_ = 1 := (Matrix.mul_eq_one_comm).mp h
  refine ⟨rfl, Invert_trans_ t, ?_, ?_⟩
  · ext i
    · simp only [mat3Mul_eq_mul, mat3MulVec_eq_mulVec, opMul, Invert, Identity, h]
    · simp only [mat3Mul_eq_mul, mat3MulVec_eq_mulVec, opMul, Invert, Identity, Matrix.mulVec_neg, Matrix.mulVec_mulVec, h,
        Matrix.one_mulVec, neg_add_cancel]
  · ext i
    · simp only [mat3Mul_eq_mul, mat3MulVec_eq_mulVec, opMul, Invert, Identity, h2]
    · simp only [mat3Mul_eq_mul, mat3MulVec_eq_mulVec, opMul, Invert, Identity, add_neg_cancel]

/-- C3: composition is associative, in the rotation and in the translation. -/
theorem opMul_assoc (a b c : SE3 α) :
    opMul (opMul a b) c = opMul a (opMul b c) := by
  ext i
  · simp only [mat3Mul_eq_mul, mat3MulVec_eq_mulVec, opMul, Matrix.mul_assoc]
  · simp only [mat3Mul_eq_mul, mat3MulVec_eq_mulVec, opMul, Matrix.mulVec_add, Matrix.mulVec_mulVec, add_assoc]

/-- After `a *= b` the receiver holds `a * b`, also when `b` is the receiver. -/
theorem opMulAssign_fst_receiver {ι : Type} [DecidableEq ι] (σ : ι → SE3 α) (a b : ι) :
    (opMulAssign σ a b).1 a = opMul (σ a) (σ b) := by
  by_cases hba : b = a
  · subst hba
    simp only [mat3Mul_eq_mul, mat3MulVec_eq_mulVec, opMulAssign, opMul, Function.update_same]
  · simp only [mat3Mul_eq_mul, mat3MulVec_eq_mulVec, opMulAssign, opMul, Function.update_same, Function.update_noteq hba]

/-- C5: after `a *= b` the receiver holds exactly `a * b` (also when `b` is
the receiver itself), the returned value is that same transform, and every
other object of the store, `b` included, is unchanged. -/
theorem opMulAssign_eq_opMul {ι : Type} [DecidableEq ι] (σ : ι → SE3 α) (a b : ι) :
    (opMulAssign σ a b).1 a = opMul (σ a) (σ b) ∧
    (opMulAssign σ a b).2 = opMul (σ a) (σ b) ∧
    (∀ k : ι, k ≠ a → (opMulAssign σ a b).1 k = σ k) := by
  refine ⟨opMulAssign_fst_receiver σ a b, opMulAssign_fst_receiver σ a b, ?_⟩
  intro k hk
  simp only [mat3Mul_eq_mul, mat3MulVec_eq_mulVec, opMulAssign, Function.update_noteq hk]

end Group

/-! ## The rotation factory -/

section RotationFactory

variable [Field α]

/-- The pair chosen by `sinCos` lies on the unit circle as soon as the
library functions do. -/
theorem sinCos_sq_add_sq [DecidableEq α] (sin cos : α → α)
    (hsc : ∀ x : α, sin x ^ 2 + cos x ^ 2 = 1) (phi : α) :
    (sinCos sin cos phi).1 ^ 2 + (sinCos sin cos phi).2 ^ 2 = 1 := by
  unfold sinCos
  split_ifs
  · simp
  · simp
  · simp
  · simp
  · exact hsc (radian phi)

/-- The rotation block built by `Rotation`, with the pair of `sinCos`. -/
theorem Rotation_rot_ [DecidableEq α] (sin cos : α → α) (u : vec3 α) (phi : α) :
    (Rotation sin cos u phi).rot_
      = vecMulVec u u + (sinCos sin cos phi).2 • (1 - vecMulVec u u)
        + (sinCos sin cos phi).1 • !![0, -u 2, u 1; u 2, 0, -u 0; -u 1, u 0, 0] :=
  rfl

/-- The translation built by `Rotation` is zero. -/
theorem Rotation_trans_ [DecidableEq α] (sin cos : α → α) (u : vec3 α) (phi : α) :
    (Rotation sin cos u phi).trans_ = 0 :=
  rfl

/-- The matrix `U` of `Rotation` is skew-symmetric. -/
theorem skew_transpose (u : vec3 α) :
    (!![0, -u 2, u 1; u 2, 0, -u 0; -u 1, u 0, 0] : mat3 α)ᵀ
      = -!![0, -u 2, u 1; u 2, 0, -u 0; -u 1, u 0, 0] := by
  ext i j
  fin_cases i <;> fin_cases j <;> simp

/-- The matrix `uut` of `Rotation` is symmetric. -/
theorem outer_transpose (u : vec3 α) : (vecMulVec u u : mat3 α)ᵀ = vecMulVec u u := by
  ext i j
  simp only [Matrix.transpose_apply, Matrix.vecMulVec_apply, mul_comm]

/-- The square of `uut` is `(u·u) uut`. -/
theorem outer_mul_outer (u : vec3 α) :
    (vecMulVec u u : mat3 α) * vecMulVec u u = (u ⬝ᵥ u) • vecMulVec u u := by
  ext i j
  simp only [Matrix.mul_apply, Fin.sum_univ_three, Matrix.vecMulVec_apply, Matrix.smul_apply,
    Matrix.vec3_dotProduct, smul_eq_mul]
  ring

/-- The product `uut · U` vanishes. -/
theorem outer_mul_skew (u : vec3 α) :
    (vecMulVec u u : mat3 α) * !![0, -u 2, u 1; u 2, 0, -u 0; -u 1, u 0, 0] = 0 := by
  ext i j
  fin_cases j <;>
    simp [Matrix.mul_apply, Fin.sum_univ_three, Matrix.vecMulVec_apply] <;> ring

/-- The product `U · uut` vanishes. -/
theorem skew_mul_outer (u : vec3 α) :
    (!![0, -u 2, u 1; u 2, 0, -u 0; -u 1, u 0, 0] : mat3 α) * vecMulVec u u = 0 := by
  ext i j
  fin_cases i <;>
    simp [Matrix.mul_apply, Fin.sum_univ_three, Matrix.vecMulVec_apply] <;> ring

/-- The square of `U` is `uut - (u·u) I`. -/
theorem skew_mul_skew (u : vec3 α) :
    (!![0, -u 2, u 1; u 2, 0, -u 0; -u 1, u 0, 0] : mat3 α)
        * !![0, -u 2, u 1; u 2, 0, -u 0; -u 1, u 0, 0]
      = vecMulVec u u - (u ⬝ᵥ u) • 1 := by
  ext i j
  fin_cases i <;> fin_cases j <;>
    simp [Matrix.mul_apply, Fin.sum_univ_three, Matrix.vecMulVec_apply, Matrix.vec3_dotProduct]
      <;> ring

/-- The product `r · rᵗ` for the matrix `r` assembled in `Rotation`, for an
arbitrary axis `u` and arbitrary numbers `s`, `c`. -/
theorem rodrigues_mul_transpose (u : vec3 α) (s c : α) :
    ((vecMulVec u u + c • (1 - vecMulVec u u) + s • !![0, -u 2, u 1; u 2, 0, -u 0; -u 1, u 0, 0])
      * (vecMulVec u u + c • (1 - vecMulVec u u)
          + s • !![0, -u 2, u 1; u 2, 0, -u 0; -u 1, u 0, 0])ᵀ : mat3 α)
      = (c ^ 2 + s ^ 2 * (u ⬝ᵥ u)) • (1 : mat3 α)
        + ((u ⬝ᵥ u) + 2 * c * (1 - (u ⬝ᵥ u)) - 2 * c ^ 2 + c ^ 2 * (u ⬝ᵥ u) - s ^ 2)
          • vecMulVec u u := by
  simp only [Matrix.transpose_add, Matrix.transpose_smul, Matrix.transpose_sub,
    Matrix.transpose_one, outer_transpose, skew_transpose, add_mul, mul_add, sub_mul, mul_sub,
    smul_mul_assoc, mul_smul_comm, mul_one, one_mul, mul_neg, neg_mul, smul_neg, smul_sub,
    smul_add, outer_mul_outer, outer_mul_skew, skew_mul_outer, skew_mul_skew, smul_zero]
  ext i j
  simp only [Matrix.add_apply, Matrix.smul_apply, Matrix.sub_apply, Matrix.neg_apply,
    Matrix.zero_apply, smul_eq_mul]
  ring

/-- Determinant of the matrix `r` assembled in `Rotation`, for an arbitrary
axis `u` and arbitrary numbers `s`, `c`. -/
theorem rodrigues_det (u : vec3 α) (s c : α) :
    (vecMulVec u u + c • (1 - vecMulVec u u)
        + s • !![0, -u 2, u 1; u 2, 0, -u 0; -u 1, u 0, 0] : mat3 α).det
      = (c + (1 - c) * (u ⬝ᵥ u)) * (c ^ 2 + s ^ 2 * (u ⬝ᵥ u)) := by
  rw [Matrix.det_fin_three]
  simp [Matrix.vecMulVec_apply, Matrix.vec3_dotProduct]
  ring

/-- The matrix `r` assembled in `Rotation` scales its axis `u` by
`u·u + c (1 - u·u)`. -/
theorem rodrigues_mulVec_axis (u : vec3 α) (s c : α) :
    (vecMulVec u u + c • (1 - vecMulVec u u)
        + s • !![0, -u 2, u 1; u 2, 0, -u 0; -u 1, u 0, 0] : mat3 α) *ᵥ u
      = ((u ⬝ᵥ u) + c * (1 - (u ⬝ᵥ u))) • u := by
  have hU : (!![0, -u 2, u 1; u 2, 0, -u 0; -u 1, u 0, 0] : mat3 α) *ᵥ u = 0 := by
    ext i
    fin_cases i <;> simp [Matrix.mulVec, dotProduct, Fin.sum_univ_three] <;> ring
  have hP : (vecMulVec u u : mat3 α) *ᵥ u = (u ⬝ᵥ u) • u := by
    ext i
    simp only [Matrix.mulVec, Matrix.vec3_dotProduct, Matrix.vecMulVec_apply, Pi.smul_apply,
      smul_eq_mul]
    ring
  simp only [Matrix.add_mulVec, Matrix.smul_mulVec_assoc, Matrix.sub_mulVec, Matrix.one_mulVec,
    hU, hP, smul_zero, add_zero]
  ext i
  simp only [Pi.add_apply, Pi.smul_apply, Pi.sub_apply, smul_eq_mul]
  ring

/-- The product `R · Rᵗ` for the rotation block of `Rotation u phi`, for an
arbitrary axis `u`: the defect from the identity is a multiple of `u·u - 1`. -/
theorem Rotation_mul_transpose [DecidableEq α] (sin cos : α → α)
    (hsc : ∀ x : α, sin x ^ 2 + cos x ^ 2 = 1) (u : vec3 α) (phi : α) :
    (Rotation sin cos u phi).rot_ * (Rotation sin cos u phi).rot_ᵀ
      = 1 + ((u ⬝ᵥ u) - 1) • ((sinCos sin cos phi).1 ^ 2 • (1 : mat3 α)
          + (1 - (sinCos sin cos phi).2) ^ 2 • vecMulVec u u) := by
  have h := sinCos_sq_add_sq sin cos hsc phi
  rw [Rotation_rot_, rodrigues_mul_transpose]
  ext i j
  simp only [Matrix.add_apply, Matrix.smul_apply, smul_eq_mul]
  linear_combination ((1 : mat3 α) i j - vecMulVec u u i j) * h

/-- The determinant of the rotation block of `Rotation u phi`, for an
arbitrary axis `u`. -/
theorem Rotation_det_eq [DecidableEq α] (sin cos : α → α)
    (hsc : ∀ x : α, sin x ^ 2 + cos x ^ 2 = 1) (u : vec3 α) (phi : α) :
    (Rotation sin cos u phi).rot_.det
      = 1 + ((u ⬝ᵥ u) - 1) * ((1 - (sinCos sin cos phi).2)
          * ((sinCos sin cos phi).2 ^ 2 + (sinCos sin cos phi).1 ^ 2 * (u ⬝ᵥ u))
          + (sinCos sin cos phi).1 ^ 2) := by
  have h := sinCos_sq_add_sq sin cos hsc phi
  rw [Rotation_rot_, rodrigues_det]
  linear_combination h

/-- With the angle 0 the factory returns the identity transform, whatever
the axis. -/
theorem Rotation_zero [DecidableEq α] (sin cos : α → α) (u : vec3 α) :
    Rotation sin cos u 0 = Identity := by
  ext i j
  · simp [Rotation_rot_, sinCos, Identity]
  · rfl

/-- C6 (amended): in exact arithmetic, with library functions such that
`sin² + cos² = 1`, for an axis with `u·u = 1` and every angle (the four
literal angles and the trigonometric branch alike), the rotation block `R`
of `Rotation u phi` satisfies `R · Rᵗ = I`. -/
theorem Rotation_orthogonal [DecidableEq α] (sin cos : α → α)
    (hsc : ∀ x : α, sin x ^ 2 + cos x ^ 2 = 1) (u : vec3 α) (hu : u ⬝ᵥ u = 1) (phi : α) :
    (Rotation sin cos u phi).rot_ * (Rotation sin cos u phi).rot_ᵀ = 1 := by
  rw [Rotation_mul_transpose sin cos hsc, hu, sub_self, zero_smul, add_zero]

/-- C7 (amended): in exact arithmetic, with library functions such that
`sin² + cos² = 1`, for an axis with `u·u = 1` and every angle, the rotation
block of `Rotation u phi` has determinant `+1`. -/
theorem Rotation_det [DecidableEq α] (sin cos : α → α)
    (hsc : ∀ x : α, sin x ^ 2 + cos x ^ 2 = 1) (u : vec3 α) (hu : u ⬝ᵥ u = 1) (phi : α) :
    (Rotation sin cos u phi).rot_.det = 1 := by
  rw [Rotation_det_eq sin cos hsc, hu, sub_self, zero_mul, add_zero]

/-- C10 (amended): in exact arithmetic a rotation fixes its own axis: for an
axis with `u·u = 1`, the vector operator of `Rotation u phi` returns `u` on
`u`, for the angle 90, for the angles 0, 180, 270 and for every other angle
(whatever the library functions return). -/
theorem Rotation_opMulVec_axis [DecidableEq α] (sin cos : α → α) (u : vec3 α)
    (hu : u ⬝ᵥ u = 1) (phi : α) :
    opMulVec (Rotation sin cos u phi) u = u := by
  simp only [mat3Mul_eq_mul, mat3MulVec_eq_mulVec, opMulVec, Rotation_rot_, rodrigues_mulVec_axis, hu, sub_self, mul_zero, add_zero,
    one_smul]

/-- C8 (amended): in exact arithmetic, proper orthogonality (`R · Rᵗ = I` and
`det R = +1`) is an invariant of the type: it holds for the identity, for
every `Translation`, for every `Rotation` about an axis with `u·u = 1` when
the library functions satisfy `sin² + cos² = 1`, and it is preserved by `*`,
by `*=` (for the receiver afterwards) and by `Invert`. -/
theorem ProperOrthogonal_invariant [DecidableEq α] :
    ProperOrthogonal (Identity : SE3 α) ∧
    (∀ (axis : vec3 α) (d : α), ProperOrthogonal (Translation axis d)) ∧
    (∀ sin cos : α → α, (∀ x : α, sin x ^ 2 + cos x ^ 2 = 1) →
      ∀ (u : vec3 α) (phi : α), u ⬝ᵥ u = 1 → ProperOrthogonal (Rotation sin cos u phi)) ∧
    (∀ a b : SE3 α, ProperOrthogonal a → ProperOrthogonal b → ProperOrthogonal (opMul a b)) ∧
    (∀ (ι : Type) [DecidableEq ι] (σ : ι → SE3 α) (a b : ι),
      ProperOrthogonal (σ a) → ProperOrthogonal (σ b) →
        ProperOrthogonal ((opMulAssign σ a b).1 a)) ∧
    (∀ a : SE3 α, ProperOrthogonal a → ProperOrthogonal (Invert a)) := by
  have hmul : ∀ a b : SE3 α, ProperOrthogonal a → ProperOrthogonal b →
      ProperOrthogonal (opMul a b) := by
    intro a b ha hb
    constructor
    · rw [opMul_rot_]
      rw [Matrix.transpose_mul, Matrix.mul_assoc, ← Matrix.mul_assoc b.rot_, hb.1,
        Matrix.one_mul, ha.1]
    · rw [opMul_rot_]
      rw [Matrix.det_mul, ha.2, hb.2, mul_one]
  refine ⟨?_, ?_, ?_, hmul, ?_, ?_⟩
  · exact ⟨by simp [Identity], by simp [Identity]⟩
  · intro axis d
    exact ⟨by simp [Translation, ofTrans], by simp [Translation, ofTrans]⟩
  · intro sin cos hsc u phi hu
    constructor
    · rw [Rotation_mul_transpose sin cos hsc, hu, sub_self, zero_smul, add_zero]
    · rw [Rotation_det_eq sin cos hsc, hu, sub_self, zero_mul, add_zero]
  · intro ι _ σ a b ha hb
    rw [opMulAssign_fst_receiver]
    exact hmul _ _ ha hb
  · intro a ha
    constructor
    · show a.rot_ᵀ * a.rot_ᵀᵀ = 1
      rw [Matrix.transpose_transpose]
      exact (Matrix.mul_eq_one_comm).mp ha.1
    · show a.rot_ᵀ.det = 1
      rw [Matrix.det_transpose, ha.2]

end RotationFactory

/-! ## Rotation about an axis that is not of unit norm -/

section NonUnitAxis

variable [LinearOrderedField α] [DecidableEq α]

/-- C9 (amended): in exact arithmetic over an ordered field, with library
functions such that `sin² + cos² = 1`: for an axis with `u·u ≠ 1` the
rotation block of `Rotation u phi` is orthogonal if and only if the pair
`(s, c)` chosen for `phi` is `(0, 1)`, or it is `(0, -1)` and `u = 0`. The
angle 0 chooses `(0, 1)` and the angle 180 chooses `(0, -1)`; any other angle
for which the library functions return one of these pairs does so too. -/
theorem Rotation_nonunit_orthogonal_iff (sin cos : α → α)
    (hsc : ∀ x : α, sin x ^ 2 + cos x ^ 2 = 1) (u : vec3 α) (hu : u ⬝ᵥ u ≠ 1) (phi : α) :
    ((Rotation sin cos u phi).rot_ * (Rotation sin cos u phi).rot_ᵀ = 1 ↔
      (sinCos sin cos phi = (0, 1) ∨ (sinCos sin cos phi = (0, -1) ∧ u = 0))) ∧
    sinCos sin cos 0 = (0, 1) ∧ sinCos sin cos 180 = (0, -1) := by
  refine ⟨?_, by simp [sinCos], by simp [sinCos]⟩
  have hc := sinCos_sq_add_sq sin cos hsc phi
  rw [Rotation_mul_transpose sin cos hsc]
  constructor
  · intro h
    have hn : (u ⬝ᵥ u) - 1 ≠ 0 := sub_ne_zero.mpr hu
    have hentry : ∀ i : Fin 3,
        (sinCos sin cos phi).1 ^ 2 + ((1 - (sinCos sin cos phi).2) * u i) ^ 2 = 0 := by
      intro i
      have hi := congrFun (congrFun h i) i
      simp only [Matrix.add_apply, Matrix.smul_apply, smul_eq_mul, Matrix.one_apply_eq,
        Matrix.vecMulVec_apply, add_right_eq_self, mul_eq_zero] at hi
      rcases hi with hi | hi
      · exact absurd hi hn
      · linear_combination hi
    have hs : (sinCos sin cos phi).1 = 0 := by
      have h0 := hentry 0
      have : (sinCos sin cos phi).1 ^ 2 = 0 := by
        nlinarith [sq_nonneg (sinCos sin cos phi).1,
          sq_nonneg ((1 - (sinCos sin cos phi).2) * u 0)]
      exact pow_eq_zero_iff (two_ne_zero) |>.mp this
    have hu0 : ∀ i : Fin 3, (1 - (sinCos sin cos phi).2) * u i = 0 := by
      intro i
      have hi := hentry i
      rw [hs] at hi
      have : ((1 - (sinCos sin cos phi).2) * u i) ^ 2 = 0 := by linear_combination hi
      exact pow_eq_zero_iff (two_ne_zero) |>.mp this
    have hc2 : ((sinCos sin cos phi).2 - 1) * ((sinCos sin cos phi).2 + 1) = 0 := by
      rw [hs] at hc
      linear_combination hc
    rcases mul_eq_zero.mp hc2 with h1 | h1
    · left
      exact Prod.ext hs (sub_eq_zero.mp h1)
    · right
      have hcm : (sinCos sin cos phi).2 = -1 := eq_neg_of_add_eq_zero_left h1
      refine ⟨Prod.ext hs hcm, ?_⟩
      funext i
      have hi := hu0 i
      rw [hcm] at hi
      have h2 : (2 : α) * u i = 0 := by linear_combination hi
      rcases mul_eq_zero.mp h2 with h3 | h3
      · exact absurd h3 two_ne_zero
      · exact h3
  · rintro (h | ⟨h, hz⟩)
    · rw [h]
      simp
    · rw [h, hz]
      simp only [neg_zero, ne_eq, OfNat.ofNat_ne_zero, not_false_eq_true, zero_pow, zero_smul,
        zero_add, add_right_eq_self, smul_eq_zero]
      right
      right
      ext i j
      simp [Matrix.vecMulVec_apply]

end NonUnitAxis

/-! ## The factories in closed form -/

section FactorySpec
variable [Field α] [CharZero α] [DecidableEq α]

/-- The pair chosen for the angle 90 (the scalars have characteristic zero,
so 90 is not 0). -/
theorem sinCos_ninety (sin cos : α → α) : sinCos sin cos 90 = (1, 0) := by
  simp [sinCos]

/-- The pair chosen for the angle 180. -/
theorem sinCos_oneEighty (sin cos : α → α) : sinCos sin cos 180 = (0, -1) := by
  simp [sinCos]

/-- The pair chosen for the angle 270. -/
theorem sinCos_twoSeventy (sin cos : α → α) : sinCos sin cos 270 = (-1, 0) := by
  simp [sinCos]

/-- In exact arithmetic of characteristic zero: the closed form of `Rotation`,
the matrix `U` as the skew-symmetric matrix of `v ↦ u × v`, the pairs of the
literal angles, and the identity for the angle 0. -/
theorem Rotation_spec_exact (sin cos : α → α) (u : vec3 α) :
    (∀ phi : α, (Rotation sin cos u phi).trans_ = 0 ∧
      (Rotation sin cos u phi).rot_
        = vecMulVec u u + (sinCos sin cos phi).2 • (1 - vecMulVec u u)
          + (sinCos sin cos phi).1 • !![0, -u 2, u 1; u 2, 0, -u 0; -u 1, u 0, 0]) ∧
    ((!![0, -u 2, u 1; u 2, 0, -u 0; -u 1, u 0, 0] : mat3 α)ᵀ
        = -!![0, -u 2, u 1; u 2, 0, -u 0; -u 1, u 0, 0] ∧
      ∀ v : vec3 α, (!![0, -u 2, u 1; u 2, 0, -u 0; -u 1, u 0, 0] : mat3 α) *ᵥ v
        = crossProduct u v) ∧
    sinCos sin cos 0 = (0, 1) ∧
    sinCos sin cos 90 = (1, 0) ∧
    sinCos sin cos 180 = (0, -1) ∧
    sinCos sin cos 270 = (-1, 0) ∧
    (∀ phi : α, phi ≠ 0 → phi ≠ 90 → phi ≠ 180 → phi ≠ 270 →
      sinCos sin cos phi
        = (sin (phi * (3.1415926535897932 : α) / 180), cos (phi * (3.1415926535897932 : α) / 180))) ∧
    Rotation sin cos u 0 = Identity := by
  refine ⟨fun phi => ⟨rfl, rfl⟩, ⟨skew_transpose u, ?_⟩, ?_, sinCos_ninety sin cos,
    sinCos_oneEighty sin cos, sinCos_twoSeventy sin cos, ?_, Rotation_zero sin cos u⟩
  · intro v
    ext i
    fin_cases i <;> simp [Matrix.mulVec, dotProduct, Fin.sum_univ_three, crossProduct] <;> ring
  · simp [sinCos]
  · intro phi h0 h1 h2 h3
    simp [sinCos, h0, h1, h2, h3, radian]

end FactorySpec

/-- C11 (amended): in every arithmetic of the scalar type, `Rotation u phi`
has zero translation and the rotation block `u·uᵗ + c (I - u·uᵗ) + s U`
(evaluated entry by entry in this order) with
`U = [0, -u₂, u₁; u₂, 0, -u₀; -u₁, u₀, 0]`, and `(s, c)` is `(0, 1)`, `(1, 0)`,
`(0, -1)`, `(-1, 0)` when `phi == 0`, `90`, `180`, `270` is the first test to
succeed and `(sin, cos)` of `phi · 3.1415926535897932 / 180` when none does;
in `float`, in `double` and in exact arithmetic of characteristic zero the
angles 0, 90, 180, 270 choose these four pairs. In exact arithmetic `U` is
skew-symmetric and is the matrix of `v ↦ u × v`, and with the angle 0 the
result is the identity for every `u`. -/
theorem Rotation_spec :
    (∀ (β : Type) [Zero β] [One β] [Add β] [Sub β] [Neg β] [Mul β] [Div β] [NatCast β]
        [OfScientific β] [BEq β] (sin cos : β → β) (u : vec3 β) (phi : β),
      (Rotation sin cos u phi).trans_ = 0 ∧
      (Rotation sin cos u phi).rot_
        = vecMulVec u u + (sinCos sin cos phi).2 • (1 - vecMulVec u u)
          + (sinCos sin cos phi).1 • !![0, -u 2, u 1; u 2, 0, -u 0; -u 1, u 0, 0] ∧
      ((phi == 0) = true → sinCos sin cos phi = (0, 1)) ∧
      ((phi == 0) = false → (phi == 90) = true → sinCos sin cos phi = (1, 0)) ∧
      ((phi == 0) = false → (phi == 90) = false → (phi == 180) = true →
        sinCos sin cos phi = (0, -1)) ∧
      ((phi == 0) = false → (phi == 90) = false → (phi == 180) = false →
        (phi == 270) = true → sinCos sin cos phi = (-1, 0)) ∧
      ((phi == 0) = false → (phi == 90) = false → (phi == 180) = false →
        (phi == 270) = false →
        sinCos sin cos phi
          = (sin (phi * (3.1415926535897932 : β) / 180),
              cos (phi * (3.1415926535897932 : β) / 180)))) ∧
    (∀ sin cos : Flt binary32 → Flt binary32,
      sinCos sin cos 0 = (0, 1) ∧ sinCos sin cos 90 = (1, 0) ∧
      sinCos sin cos 180 = (0, -1) ∧ sinCos sin cos 270 = (-1, 0)) ∧
    (∀ sin cos : Flt binary64 → Flt binary64,
      sinCos sin cos 0 = (0, 1) ∧ sinCos sin cos 90 = (1, 0) ∧
      sinCos sin cos 180 = (0, -1) ∧ sinCos sin cos 270 = (-1, 0)) ∧
    (∀ (β : Type) [Field β] [CharZero β] [DecidableEq β] (sin cos : β → β) (u : vec3 β),
      ((!![0, -u 2, u 1; u 2, 0, -u 0; -u 1, u 0, 0] : mat3 β)ᵀ
          = -!![0, -u 2, u 1; u 2, 0, -u 0; -u 1, u 0, 0] ∧
        ∀ v : vec3 β, (!![0, -u 2, u 1; u 2, 0, -u 0; -u 1, u 0, 0] : mat3 β) *ᵥ v
          = crossProduct u v) ∧
      sinCos sin cos 0 = (0, 1) ∧
      sinCos sin cos 90 = (1, 0) ∧
      sinCos sin cos 180 = (0, -1) ∧
      sinCos sin cos 270 = (-1, 0) ∧
      (∀ phi : β, phi ≠ 0 → phi ≠ 90 → phi ≠ 180 → phi ≠ 270 →
        sinCos sin cos phi
          = (sin (phi * (3.1415926535897932 : β) / 180),
              cos (phi * (3.1415926535897932 : β) / 180))) ∧
      Rotation sin cos u 0 = Identity) := by
  refine ⟨?_, sinCos_literal_float, sinCos_literal_double, ?_⟩
  · intro β _ _ _ _ _ _ _ _ _ _ sin cos u phi
    exact ⟨rfl, rfl, sinCos_of_zero sin cos phi, sinCos_of_ninety sin cos phi,
      sinCos_of_oneEighty sin cos phi, sinCos_of_twoSeventy sin cos phi,
      sinCos_of_other sin cos phi⟩
  · intro β _ _ _ sin cos u
    exact (Rotation_spec_exact sin cos u).2

/-! ## Application to vectors and points, export -/

section Application
variable [Field α]

/-- The transform `T` at the end of a scenario of the test is the product of
the rotation and the translation. -/
theorem compositionScenario_fst [DecidableEq α] (sin cos : α → α) (u : vec3 α) (angle : α)
    (d : vec3 α) (delta : α) :
    (compositionScenario sin cos u angle d delta).1
      = opMul (Rotation sin cos u angle) (Translation d delta) := by
  show (opMulAssign (fun k : Bool => if k then Translation d delta else Rotation sin cos u angle)
    false true).1 false = _
  rw [opMulAssign_fst_receiver]
  rfl

/-- In exact arithmetic the check of the test scenario succeeds for every
rotation axis, angle, translation axis and distance, and the rotation of
`T` is the rotation of `Rotation(u, angle)`. -/
theorem compositionScenario_check_exact [DecidableEq α] (sin cos : α → α) :
    (∀ (u : vec3 α) (angle : α) (d : vec3 α) (delta : α),
      (compositionScenario sin cos u angle d delta).2
          = GetTranslation (compositionScenario sin cos u angle d delta).1 ∧
        compositionCheck sin cos u angle d delta = true ∧
        GetRotation (compositionScenario sin cos u angle d delta).1
          = GetRotation (Rotation sin cos u angle)) ∧
    (∀ u ∈ [(UnitX : vec3 α), UnitY, UnitZ], ∀ d ∈ [(UnitX : vec3 α), UnitY, UnitZ],
      compositionCheck sin cos u 90 d 4 = true) := by
  have key : ∀ (u : vec3 α) (angle : α) (d : vec3 α) (delta : α),
      (compositionScenario sin cos u angle d delta).2
          = GetTranslation (compositionScenario sin cos u angle d delta).1 := by
    intro u angle d delta
    have hd : (fun i => d i * delta) = delta • d := by
      funext i
      simp only [Pi.smul_apply, smul_eq_mul, mul_comm]
    show mat3MulVec (GetRotation (compositionScenario sin cos u angle d delta).1)
        (fun i => d i * delta)
      = GetTranslation (compositionScenario sin cos u angle d delta).1
    rw [compositionScenario_fst, hd]
    simp only [mat3Mul_eq_mul, mat3MulVec_eq_mulVec, GetRotation, GetTranslation, opMul,
      Translation, ofTrans, Rotation, ofRot, mul_one, add_zero]
  refine ⟨fun u angle d delta => ⟨key u angle d delta, ?_, ?_⟩, ?_⟩
  · rw [compositionCheck, vec3Eq_iff_eq]
    exact key u angle d delta
  · rw [compositionScenario_fst]
    simp only [mat3Mul_eq_mul, mat3MulVec_eq_mulVec, GetRotation, opMul, Translation, ofTrans, mul_one]
  · intro u _ d _
    rw [compositionCheck, vec3Eq_iff_eq]
    exact key u 90 d 4

/-- C12 (amended): in exact arithmetic, for every rotation axis, angle,
translation axis and distance, after
`T = Rotation(u, angle); T *= Translation(d, delta)` the vector
`T.GetRotation() * (d * delta)` equals `T.GetTranslation()` (the `CHECK` of
the test succeeds) and `T.GetRotation()` is the rotation of
`Rotation(u, angle)`; and in `float`, the arithmetic of the test, the check
succeeds for the angle 90, the distance 4 and the nine pairs of unit axes. -/
theorem compositionScenario_check :
    (∀ (β : Type) [Field β] [DecidableEq β] (sin cos : β → β),
      (∀ (u : vec3 β) (angle : β) (d : vec3 β) (delta : β),
        (compositionScenario sin cos u angle d delta).2
            = GetTranslation (compositionScenario sin cos u angle d delta).1 ∧
          compositionCheck sin cos u angle d delta = true ∧
          GetRotation (compositionScenario sin cos u angle d delta).1
            = GetRotation (Rotation sin cos u angle)) ∧
      (∀ u ∈ [(UnitX : vec3 β), UnitY, UnitZ], ∀ d ∈ [(UnitX : vec3 β), UnitY, UnitZ],
        compositionCheck sin cos u 90 d 4 = true)) ∧
    (∀ sin cos : Flt binary32 → Flt binary32,
      ∀ u ∈ [(UnitX : vec3 (Flt binary32)), UnitY, UnitZ],
        ∀ d ∈ [(UnitX : vec3 (Flt binary32)), UnitY, UnitZ],
          compositionCheck sin cos u 90 d 4 = true) :=
  ⟨fun _ _ _ sin cos => compositionScenario_check_exact sin cos, compositionCheck_float⟩

/-- In exact arithmetic: the vector and point operators, and the difference
of two transformed points. -/
theorem apply_vector_and_point_exact (t : SE3 α) (p q v : vec3 α) :
    opMulVec t v = t.rot_ *ᵥ v ∧
    (∀ t2 : SE3 α, t2.rot_ = t.rot_ → opMulVec t2 v = opMulVec t v) ∧
    opXorVec t p = t.rot_ *ᵥ p + t.trans_ ∧
    opXorVec t p = opMulVec t p + GetTranslation t ∧
    opXorVec t p - opXorVec t q = opMulVec t (p - q) := by
  refine ⟨opMulVec_eq t v, ?_, opXorVec_eq t p, rfl, ?_⟩
  · intro t2 h
    simp only [mat3Mul_eq_mul, mat3MulVec_eq_mulVec, opMulVec, h]
  · simp only [mat3Mul_eq_mul, mat3MulVec_eq_mulVec, opXorVec, opMulVec, Matrix.mulVec_sub,
      add_sub_add_right_eq_sub]

/-- C13 (amended): in every arithmetic of the scalar type the vector operator
is `rot_ · v` and depends on the rotation block only, and the point operator
is `rot_ · p + trans_`, that is the vector operator plus `GetTranslation`;
in exact arithmetic the difference of two transformed points is the
transformed difference vector. -/
theorem apply_vector_and_point :
    (∀ (β : Type) [Add β] [Mul β] (t : SE3 β) (p v : vec3 β),
      opMulVec t v = mat3MulVec t.rot_ v ∧
      (∀ t2 : SE3 β, t2.rot_ = t.rot_ → opMulVec t2 v = opMulVec t v) ∧
      opXorVec t p = mat3MulVec t.rot_ p + t.trans_ ∧
      opXorVec t p = opMulVec t p + GetTranslation t) ∧
    (∀ (β : Type) [Field β] (t : SE3 β) (p q v : vec3 β),
      opMulVec t v = t.rot_ *ᵥ v ∧
      opXorVec t p = t.rot_ *ᵥ p + t.trans_ ∧
      opXorVec t p - opXorVec t q = opMulVec t (p - q)) := by
  constructor
  · intro β _ _ t p v
    refine ⟨rfl, ?_, rfl, rfl⟩
    intro t2 h
    simp only [opMulVec, h]
  · intro β _ t p q v
    exact ⟨(apply_vector_and_point_exact t p q v).1, (apply_vector_and_point_exact t p q v).2.2.1,
      (apply_vector_and_point_exact t p q v).2.2.2.2⟩

/-- C15: in `GetMatrix` the top-left 3×3 block is `GetRotation`, the last
column in the rows 0..2 is `GetTranslation`, and the bottom row is
`[0, 0, 0, 1]`. -/
theorem GetMatrix_blocks (t : SE3 α) :
    (∀ i j : Fin 3, GetMatrix t i.castSucc j.castSucc = GetRotation t i j) ∧
    (∀ i : Fin 3, GetMatrix t i.castSucc 3 = GetTranslation t i) ∧
    GetMatrix t 3 = ![0, 0, 0, 1] := by
  refine ⟨?_, ?_, ?_⟩
  · intro i j
    fin_cases i <;> fin_cases j <;> rfl
  · intro i
    fin_cases i <;> rfl
  · rfl

end Application

/-! ## Batch operators -/

/-- Entries after a loop that overwrites the columns listed in `l`. -/
theorem foldl_updateColumn_apply {n : Nat} (f : Fin n → vec3 α) (l : List (Fin n))
    (res0 : mat3x α n) (i : Fin 3) (j : Fin n) :
    (l.foldl (fun res idx => res.updateColumn idx (f idx)) res0) i j
      = if j ∈ l then f j i else res0 i j := by
  induction l generalizing res0 with
  | nil => simp
  | cons a l ih =>
    rw [List.foldl_cons, ih]
    by_cases hj : j ∈ l
    · simp [hj]
    · by_cases hja : j = a
      · subst hja
        simp [hj, Matrix.updateColumn_self]
      · simp [hj, hja, Matrix.updateColumn_ne hja]

section Batch

variable [Field α]

/-- C14: for every column count `n` (zero included) and whatever `res` holds
after `resize`, the batch vector and point operators return the 3×n matrix
whose column `j` is the single-element operator applied to column `j` of the
input. -/
theorem batch_eq_columnwise {n : Nat} (t : SE3 α) (cols res0 : mat3x α n) :
    (∀ (i : Fin 3) (j : Fin n), opMulCols t cols res0 i j = opMulVec t (fun k => cols k j) i) ∧
    (∀ (i : Fin 3) (j : Fin n), opXorCols t cols res0 i j = opXorVec t (fun k => cols k j) i) := by
  constructor
  · intro i j
    unfold opMulCols
    rw [foldl_updateColumn_apply (fun idx => opMulVec t (fun k => cols k idx))]
    simp [List.mem_finRange]
  · intro i j
    unfold opXorCols
    rw [foldl_updateColumn_apply (fun idx => opXorVec t (fun k => cols k idx))]
    simp [List.mem_finRange]

end Batch

/-! ## Laws of the inverse -/

section InverseLaws
variable [Field α]

/-- C19 (amended): in exact arithmetic, for transforms with orthogonal
rotation blocks, `Invert` reverses the composition, and it is an involution.
(Only the orthogonality of `a` is used.) -/
theorem Invert_opMul (a b : SE3 α) (ha : a.rot_ * a.rot_ᵀ = 1) (_hb : b.rot_ * b.rot_ᵀ = 1) :
    Invert (opMul a b) = opMul (Invert b) (Invert a) ∧ Invert (Invert a) = a := by
  have ha2 : a.rot_ᵀ * a.rot_ = 1 := (Matrix.mul_eq_one_comm).mp ha
  constructor
  · ext i
    · simp only [mat3Mul_eq_mul, mat3MulVec_eq_mulVec, Invert, opMul, Matrix.transpose_mul]
    · simp only [mat3Mul_eq_mul, mat3MulVec_eq_mulVec, Invert, opMul, Matrix.transpose_mul, Matrix.mulVec_add, Matrix.mulVec_neg,
        Matrix.mulVec_mulVec, Matrix.mul_assoc, ha2, Matrix.mul_one, neg_add_rev]
  · ext i
    · simp only [mat3Mul_eq_mul, mat3MulVec_eq_mulVec, Invert, Matrix.transpose_transpose]
    · simp only [mat3Mul_eq_mul, mat3MulVec_eq_mulVec, Invert, Matrix.transpose_transpose, Matrix.mulVec_neg, Matrix.mulVec_mulVec, ha,
        Matrix.one_mulVec, neg_neg]

/-- C17 (amended): for an orthogonal rotation block the inverse is the
transpose; `Invert t` coincides with the computation without the
transposition exactly when the block is symmetric, and the block is
symmetric exactly when it squares to the identity. -/
theorem Invert_eq_InvertWithoutTranspose_iff (t : SE3 α) (h : t.rot_ * t.rot_ᵀ = 1) :
    t.rot_⁻¹ = t.rot_ᵀ ∧
    (Invert t = InvertWithoutTranspose t ↔ t.rot_ᵀ = t.rot_) ∧
    (t.rot_ᵀ = t.rot_ ↔ t.rot_ * t.rot_ = 1) := by
  refine ⟨Matrix.inv_eq_right_inv h, ?_, ?_⟩
  · constructor
    · intro he
      exact congrArg SE3.rot_ he
    · intro hs
      ext i
      · simp only [mat3Mul_eq_mul, mat3MulVec_eq_mulVec, Invert, InvertWithoutTranspose, hs]
      · simp only [mat3Mul_eq_mul, mat3MulVec_eq_mulVec, Invert, InvertWithoutTranspose, hs]
  · constructor
    · intro hs
      nth_rewrite 2 [← hs]
      exact h
    · intro hs
      have h1 : t.rot_⁻¹ = t.rot_ᵀ := Matrix.inv_eq_right_inv h
      have h2 : t.rot_⁻¹ = t.rot_ := Matrix.inv_eq_right_inv hs
      rw [← h1, h2]

end InverseLaws

/-! ## The homogeneous matrix -/

section Homogeneous
variable [Field α]

end Homogeneous

/-! ## Composition of the literal angles -/

section LiteralAngles
variable [Field α] [CharZero α] [DecidableEq α]

/-- C20 (amended): in exact arithmetic of characteristic zero, about an axis
with `u·u = 1`, two quarter turns compose to the half turn, the quarter turn
and the three-quarter turn compose to the identity, and the inverse of the
quarter turn is the three-quarter turn, each as an equality of transforms. -/
theorem Rotation_literal_compose (sin cos : α → α) (u : vec3 α) (hu : u ⬝ᵥ u = 1) :
    opMul (Rotation sin cos u 90) (Rotation sin cos u 90) = Rotation sin cos u 180 ∧
    opMul (Rotation sin cos u 90) (Rotation sin cos u 270) = Identity ∧
    Invert (Rotation sin cos u 90) = Rotation sin cos u 270 := by
  have h90 : sinCos sin cos 90 = (1, 0) := by simp [sinCos]
  have h180 : sinCos sin cos 180 = (0, -1) := by simp [sinCos]
  have h270 : sinCos sin cos 270 = (-1, 0) := by simp [sinCos]
  have r90 : (Rotation sin cos u 90).rot_
      = vecMulVec u u + !![0, -u 2, u 1; u 2, 0, -u 0; -u 1, u 0, 0] := by
    rw [Rotation_rot_, h90]
    simp only [zero_smul, add_zero, one_smul]
  have r180 : (Rotation sin cos u 180).rot_ = vecMulVec u u - (1 - vecMulVec u u) := by
    rw [Rotation_rot_, h180]
    simp only [neg_smul, one_smul, zero_smul, add_zero, sub_eq_add_neg]
  have r270 : (Rotation sin cos u 270).rot_
      = vecMulVec u u - !![0, -u 2, u 1; u 2, 0, -u 0; -u 1, u 0, 0] := by
    rw [Rotation_rot_, h270]
    simp only [zero_smul, add_zero, neg_smul, one_smul, sub_eq_add_neg]
  refine ⟨?_, ?_, ?_⟩
  · ext i j
    · rw [opMul_rot_, r90, r180]
      simp only [add_mul, mul_add, outer_mul_outer, outer_mul_skew, skew_mul_outer,
        skew_mul_skew, hu, one_smul, add_zero, zero_add]
      simp only [Matrix.add_apply, Matrix.sub_apply]
      ring
    · simp only [mat3Mul_eq_mul, mat3MulVec_eq_mulVec, opMul, Rotation_trans_, Matrix.mulVec_zero, add_zero]
  · ext i j
    · show (opMul (Rotation sin cos u 90) (Rotation sin cos u 270)).rot_ i j = (1 : mat3 α) i j
      rw [opMul_rot_, r90, r270]
      simp only [add_mul, mul_sub, outer_mul_outer, outer_mul_skew, skew_mul_outer,
        skew_mul_skew, hu, one_smul, sub_zero, zero_sub, add_zero, zero_add]
      simp only [Matrix.add_apply, Matrix.sub_apply, Matrix.neg_apply]
      ring
    · simp only [mat3Mul_eq_mul, mat3MulVec_eq_mulVec, opMul, Rotation_trans_, Matrix.mulVec_zero, add_zero, Identity]
  · ext i j
    · show ((Rotation sin cos u 90).rot_)ᵀ i j = (Rotation sin cos u 270).rot_ i j
      rw [r90, r270, Matrix.transpose_add, outer_transpose, skew_transpose, sub_eq_add_neg]
    · simp only [mat3Mul_eq_mul, mat3MulVec_eq_mulVec, Invert, Rotation_trans_, Matrix.mulVec_zero, neg_zero]

end LiteralAngles

/-! ## Concrete instances -/

section Instances

/-- C2 (amended) at a concrete input: the quarter turn about z with translation
`(1, 2, 3)` has an orthogonal rotation block, and `Invert` is its two-sided
inverse. -/
theorem opMul_Invert_eq_Identity_witness :
    quarterTurnZ.rot_ * quarterTurnZ.rot_ᵀ = 1 ∧
    opMul quarterTurnZ (Invert quarterTurnZ) = Identity ∧
    opMul (Invert quarterTurnZ) quarterTurnZ = Identity :=
  have h : quarterTurnZ.rot_ * quarterTurnZ.rot_ᵀ = 1 := by
    ext i j
    fin_cases i <;> fin_cases j <;>
      simp [quarterTurnZ, Matrix.mul_apply, Fin.sum_univ_three, Matrix.vecHead, Matrix.vecTail]
  ⟨h, (opMul_Invert_eq_Identity quarterTurnZ h).2.2.1,
    (opMul_Invert_eq_Identity quarterTurnZ h).2.2.2⟩

/-- C6 (amended) at a concrete input: over the reals, the rotation by 45 degrees
(trigonometric branch) about the z axis is orthogonal. -/
theorem Rotation_orthogonal_witness :
    (∀ x : ℝ, Real.sin x ^ 2 + Real.cos x ^ 2 = 1) ∧
    (![0, 0, 1] : vec3 ℝ) ⬝ᵥ ![0, 0, 1] = 1 ∧
    (Rotation Real.sin Real.cos ![0, 0, 1] 45).rot_
      * (Rotation Real.sin Real.cos ![0, 0, 1] 45).rot_ᵀ = 1 :=
  have hu : (![0, 0, 1] : vec3 ℝ) ⬝ᵥ ![0, 0, 1] = 1 := by
    simp [Matrix.vec3_dotProduct]
  ⟨Real.sin_sq_add_cos_sq, hu,
    Rotation_orthogonal Real.sin Real.cos Real.sin_sq_add_cos_sq ![0, 0, 1] hu 45⟩

/-- C7 (amended) at a concrete input: over the reals, the rotation by 30 degrees about
the x axis has determinant one. -/
theorem Rotation_det_witness :
    (∀ x : ℝ, Real.sin x ^ 2 + Real.cos x ^ 2 = 1) ∧
    (![1, 0, 0] : vec3 ℝ) ⬝ᵥ ![1, 0, 0] = 1 ∧
    (Rotation Real.sin Real.cos ![1, 0, 0] 30).rot_.det = 1 :=
  have hu : (![1, 0, 0] : vec3 ℝ) ⬝ᵥ ![1, 0, 0] = 1 := by
    simp [Matrix.vec3_dotProduct]
  ⟨Real.sin_sq_add_cos_sq, hu,
    Rotation_det Real.sin Real.cos Real.sin_sq_add_cos_sq ![1, 0, 0] hu 30⟩

/-- C8 (amended) at a concrete input: over the reals, the rotation by 60 degrees about
the z axis composed with a translation, and its inverse, are proper
orthogonal. -/
theorem ProperOrthogonal_invariant_witness :
    ProperOrthogonal
      (opMul (Rotation Real.sin Real.cos ![0, 0, 1] 60) (Translation ![1, 2, 3] 4)) ∧
    ProperOrthogonal
      (Invert (opMul (Rotation Real.sin Real.cos ![0, 0, 1] 60) (Translation ![1, 2, 3] 4))) :=
  have hu : (![0, 0, 1] : vec3 ℝ) ⬝ᵥ ![0, 0, 1] = 1 := by
    simp [Matrix.vec3_dotProduct]
  have hr : ProperOrthogonal (Rotation Real.sin Real.cos (![0, 0, 1] : vec3 ℝ) 60) :=
    ProperOrthogonal_invariant.2.2.1 Real.sin Real.cos Real.sin_sq_add_cos_sq _ 60 hu
  have ht : ProperOrthogonal (Translation (![1, 2, 3] : vec3 ℝ) 4) :=
    ProperOrthogonal_invariant.2.1 _ 4
  have hm := ProperOrthogonal_invariant.2.2.2.1 _ _ hr ht
  ⟨hm, ProperOrthogonal_invariant.2.2.2.2.2 _ hm⟩

/-- C9 refuted as stated: over the reals the axis `(2, 0, 0)` is not of unit
norm, yet `Rotation` with the angle 0 returns an orthogonal rotation block
(the identity); the same happens in `double`, where the computed `u·u` is 4
and the computed `R · Rᵗ` is the identity. -/
theorem Rotation_nonunit_angle_zero_orthogonal :
    ((![2, 0, 0] : vec3 ℝ) ⬝ᵥ ![2, 0, 0] ≠ 1 ∧
      (Rotation Real.sin Real.cos ![2, 0, 0] 0).rot_
        * (Rotation Real.sin Real.cos ![2, 0, 0] 0).rot_ᵀ = 1) ∧
    (dot3 ![(2 : Flt binary64), 0, 0] ![2, 0, 0] = 4 ∧
      mat3Mul (Rotation unusedTrig unusedTrig ![(2 : Flt binary64), 0, 0] 0).rot_
        (Rotation unusedTrig unusedTrig ![(2 : Flt binary64), 0, 0] 0).rot_ᵀ = 1) := by
  refine ⟨⟨?_, ?_⟩, by decide!⟩
  · simp [Matrix.vec3_dotProduct]
    norm_num
  · rw [Rotation_zero]
    simp [Identity]

/-- C9 (amended) at a concrete input: over the reals, with the axis
`(2, 0, 0)` and the angle 90 the chosen pair is `(1, 0)`, so the rotation
block is not orthogonal. -/
theorem Rotation_nonunit_orthogonal_iff_witness :
    (∀ x : ℝ, Real.sin x ^ 2 + Real.cos x ^ 2 = 1) ∧
    (![2, 0, 0] : vec3 ℝ) ⬝ᵥ ![2, 0, 0] ≠ 1 ∧
    (Rotation Real.sin Real.cos ![2, 0, 0] 90).rot_
      * (Rotation Real.sin Real.cos ![2, 0, 0] 90).rot_ᵀ ≠ 1 := by
  have hu : (![2, 0, 0] : vec3 ℝ) ⬝ᵥ ![2, 0, 0] ≠ 1 := by
    simp [Matrix.vec3_dotProduct]
    norm_num
  have hsc : sinCos Real.sin Real.cos 90 = (1, 0) := by
    simp [sinCos]
  refine ⟨Real.sin_sq_add_cos_sq, hu, ?_⟩
  intro h
  rcases (Rotation_nonunit_orthogonal_iff Real.sin Real.cos Real.sin_sq_add_cos_sq
    ![2, 0, 0] hu 90).1.mp h with h1 | ⟨h1, _⟩
  · rw [hsc] at h1
    simp at h1
  · rw [hsc] at h1
    simp at h1

/-- C10 (amended) at a concrete input: over the reals, the rotation by 90 degrees about
the y axis returns the y axis on the y axis. -/
theorem Rotation_opMulVec_axis_witness :
    (![0, 1, 0] : vec3 ℝ) ⬝ᵥ ![0, 1, 0] = 1 ∧
    opMulVec (Rotation Real.sin Real.cos ![0, 1, 0] 90) ![0, 1, 0] = ![0, 1, 0] :=
  have hu : (![0, 1, 0] : vec3 ℝ) ⬝ᵥ ![0, 1, 0] = 1 := by
    simp [Matrix.vec3_dotProduct]
  ⟨hu, Rotation_opMulVec_axis Real.sin Real.cos ![0, 1, 0] hu 90⟩

/-- The rotation block of the sample quarter turn is orthogonal. -/
theorem quarterTurnZ_orthogonal : quarterTurnZ.rot_ * quarterTurnZ.rot_ᵀ = 1 := by
  ext i j
  fin_cases i <;> fin_cases j <;>
    simp [quarterTurnZ, Matrix.mul_apply, Fin.sum_univ_three, Matrix.vecHead, Matrix.vecTail]

/-- The rotation block of the sample half turn is orthogonal. -/
theorem halfTurnZ_orthogonal : halfTurnZ.rot_ * halfTurnZ.rot_ᵀ = 1 := by
  ext i j
  fin_cases i <;> fin_cases j <;>
    simp [halfTurnZ, Matrix.mul_apply, Fin.sum_univ_three, Matrix.vecHead, Matrix.vecTail]

/-- The rotation block of the sample half turn is symmetric. -/
theorem halfTurnZ_symmetric : halfTurnZ.rot_ᵀ = halfTurnZ.rot_ := by
  ext i j
  fin_cases i <;> fin_cases j <;> simp [halfTurnZ, Matrix.vecHead, Matrix.vecTail]

/-- C11 (amended) at a concrete input: over the reals the angle 45 is none of the four
literal angles, so the pair is computed by the library functions. -/
theorem Rotation_spec_witness :
    sinCos Real.sin Real.cos 45
      = (Real.sin (45 * (3.1415926535897932 : ℝ) / 180),
          Real.cos (45 * (3.1415926535897932 : ℝ) / 180)) :=
  (Rotation_spec.2.2.2 ℝ Real.sin Real.cos (UnitZ : vec3 ℝ)).2.2.2.2.2.1 45
    (by norm_num) (by norm_num) (by norm_num) (by norm_num)

/-- C12 (amended) at a concrete input: over the reals, the scenario of the test with
the rotation about `UnitX` and the translation along `UnitY` passes its
check. -/
theorem compositionScenario_check_witness :
    compositionCheck Real.sin Real.cos (UnitX : vec3 ℝ) 90 UnitY 4 = true :=
  (compositionScenario_check.1 ℝ Real.sin Real.cos).2 UnitX (by simp) UnitY (by simp)

/-- C17 refuted as stated: the sample quarter turn has an orthogonal rotation
block that differs from its transpose, and `Invert` differs from the
computation without the transposition. -/
theorem Invert_ne_InvertWithoutTranspose_quarterTurnZ :
    quarterTurnZ.rot_ * quarterTurnZ.rot_ᵀ = 1 ∧
    quarterTurnZ.rot_ᵀ ≠ quarterTurnZ.rot_ ∧
    Invert quarterTurnZ ≠ InvertWithoutTranspose quarterTurnZ := by
  have hne : quarterTurnZ.rot_ᵀ ≠ quarterTurnZ.rot_ := by
    intro h
    have h01 := congrFun (congrFun h 0) 1
    simp [quarterTurnZ] at h01
    norm_num at h01
  refine ⟨quarterTurnZ_orthogonal, hne, ?_⟩
  intro h
  exact hne (congrArg SE3.rot_ h)

/-- C17 (amended) at a concrete input: the sample half turn has an orthogonal
and symmetric rotation block, and for it `Invert` coincides with the
computation without the transposition. -/
theorem Invert_eq_InvertWithoutTranspose_iff_witness :
    halfTurnZ.rot_ * halfTurnZ.rot_ᵀ = 1 ∧
    Invert halfTurnZ = InvertWithoutTranspose halfTurnZ :=
  ⟨halfTurnZ_orthogonal,
    (Invert_eq_InvertWithoutTranspose_iff halfTurnZ halfTurnZ_orthogonal).2.1.mpr
      halfTurnZ_symmetric⟩

/-- C19 (amended) at a concrete input: the sample quarter turn and half turn. -/
theorem Invert_opMul_witness :
    quarterTurnZ.rot_ * quarterTurnZ.rot_ᵀ = 1 ∧
    halfTurnZ.rot_ * halfTurnZ.rot_ᵀ = 1 ∧
    Invert (opMul quarterTurnZ halfTurnZ) = opMul (Invert halfTurnZ) (Invert quarterTurnZ) ∧
    Invert (Invert quarterTurnZ) = quarterTurnZ :=
  ⟨quarterTurnZ_orthogonal, halfTurnZ_orthogonal,
    Invert_opMul quarterTurnZ halfTurnZ quarterTurnZ_orthogonal halfTurnZ_orthogonal⟩

/-- C20 (amended) at a concrete input: over the reals, the literal-angle rotations
about `UnitZ`. -/
theorem Rotation_literal_compose_witness :
    (UnitZ : vec3 ℝ) ⬝ᵥ UnitZ = 1 ∧
    opMul (Rotation Real.sin Real.cos (UnitZ : vec3 ℝ) 90) (Rotation Real.sin Real.cos UnitZ 90)
      = Rotation Real.sin Real.cos UnitZ 180 ∧
    opMul (Rotation Real.sin Real.cos (UnitZ : vec3 ℝ) 90) (Rotation Real.sin Real.cos UnitZ 270)
      = Identity ∧
    Invert (Rotation Real.sin Real.cos (UnitZ : vec3 ℝ) 90)
      = Rotation Real.sin Real.cos UnitZ 270 :=
  have hu : (UnitZ : vec3 ℝ) ⬝ᵥ UnitZ = 1 := by
    simp [UnitZ, Matrix.vec3_dotProduct]
  ⟨hu, Rotation_literal_compose Real.sin Real.cos UnitZ hu⟩

/-- C13 (amended) at a concrete input: over the rationals, the sample quarter
turn and the transform with the same rotation block and no translation act
alike on the vector `(1, 2, 3)`. -/
theorem apply_vector_and_point_witness :
    ({ rot_ := quarterTurnZ.rot_, trans_ := 0 } : SE3 ℚ).rot_ = quarterTurnZ.rot_ ∧
    opMulVec ({ rot_ := quarterTurnZ.rot_, trans_ := 0 } : SE3 ℚ) ![1, 2, 3]
      = opMulVec quarterTurnZ ![1, 2, 3] :=
  ⟨rfl, (apply_vector_and_point.1 ℚ quarterTurnZ 0 ![1, 2, 3]).2.1
    { rot_ := quarterTurnZ.rot_, trans_ := 0 } rfl⟩

end Instances

/-! ## Floating-point arithmetic: where the exact laws fail

Each value and each inequality stated below rests on sums of three products
of which at most two are non-zero (or on no sum at all), so it does not
depend on the order in which Eigen adds the products. -/

section FloatingPoint

/-- In `double`, `radian(180)` is the double nearest to π,
`0x1.921fb54442d18p+1`. -/
theorem radian_oneEighty_double :
    radian (180 : Flt binary64) = Flt.fin 884279719003555 (-48) := by
  decide!

/-- C2 refuted as stated, in `double`: the sample half turn has a rotation
block `R` with computed `R · Rᵗ` equal to the identity, yet `t * Invert(t)`
has the translation `(2⁻⁵⁰, 0, 0)` and is not the identity transform. -/
theorem opMul_Invert_ne_Identity_double :
    mat3Mul doubleHalfTurn.rot_ doubleHalfTurn.rot_ᵀ = 1 ∧
    (opMul doubleHalfTurn (Invert doubleHalfTurn)).trans_ = ![Flt.fin 1 (-50), 0, 0] ∧
    opMul doubleHalfTurn (Invert doubleHalfTurn) ≠ Identity := by
  decide!

/-- C6 refuted as stated, in `double`: the axis `axis0608` has computed
`u·u = 1`, yet for the angle 180 the computed `R · Rᵗ` has the entry
`3 · 2⁻⁵⁴` off the diagonal and is not the identity. -/
theorem Rotation_not_orthogonal_double :
    dot3 axis0608 axis0608 = 1 ∧
    mat3Mul (Rotation unusedTrig unusedTrig axis0608 180).rot_
      (Rotation unusedTrig unusedTrig axis0608 180).rot_ᵀ 0 1 = Flt.fin 3 (-54) ∧
    mat3Mul (Rotation unusedTrig unusedTrig axis0608 180).rot_
      (Rotation unusedTrig unusedTrig axis0608 180).rot_ᵀ ≠ 1 := by
  decide!

/-- The rotation block of `Rotation(axis0608, 270)` in `double`. -/
theorem Rotation_axis0608_270 :
    (Rotation unusedTrig unusedTrig axis0608 270).rot_
      = !![Flt.fin 3242591731706757 (-53), Flt.fin 1080863910568919 (-51),
             Flt.fin (-3602879701896397) (-52);
           Flt.fin 1080863910568919 (-51), Flt.fin 1441151880758559 (-51),
             Flt.fin 5404319552844595 (-53);
           Flt.fin 3602879701896397 (-52), Flt.fin (-5404319552844595) (-53),
             Flt.fin 0 0] := by
  decide!

/-- The rotation block of `Rotation(axis0806, 90)` in `double`. -/
theorem Rotation_axis0806_90 :
    (Rotation unusedTrig unusedTrig axis0806 90).rot_
      = !![Flt.fin 1441151880758559 (-51), Flt.fin 1080863910568919 (-51),
             Flt.fin 5404319552844595 (-53);
           Flt.fin 1080863910568919 (-51), Flt.fin 3242591731706757 (-53),
             Flt.fin (-3602879701896397) (-52);
           Flt.fin (-5404319552844595) (-53), Flt.fin 3602879701896397 (-52),
             Flt.fin 0 0] := by
  decide!

/-- C7 refuted as stated, in `double`: the axis `axis0608` has computed
`u·u = 1`, yet the determinant of the rotation block of `Rotation` with the
angle 270, taken exactly on the computed entries, is not 1. -/
theorem Rotation_det_ne_one_double :
    dot3 axis0608 axis0608 = 1 ∧
    (exactValue (Rotation unusedTrig unusedTrig axis0608 270)).rot_.det ≠ 1 := by
  refine ⟨by decide!, ?_⟩
  rw [exactValue, Rotation_axis0608_270, Matrix.det_fin_three]
  simp [Flt.toRat]
  norm_num

/-- C8 refuted as stated, in `double`: the axis `axis0806` has computed
`u·u = 1`, yet for the angle 90 the computed `R · Rᵗ` is not the identity,
and the exact values of the computed entries do not form a proper orthogonal
matrix. -/
theorem Rotation_not_ProperOrthogonal_double :
    dot3 axis0806 axis0806 = 1 ∧
    mat3Mul (Rotation unusedTrig unusedTrig axis0806 90).rot_
      (Rotation unusedTrig unusedTrig axis0806 90).rot_ᵀ ≠ 1 ∧
    ¬ ProperOrthogonal (exactValue (Rotation unusedTrig unusedTrig axis0806 90)) := by
  refine ⟨by decide!, by decide!, ?_⟩
  intro h
  have hdet := h.2
  rw [exactValue, Rotation_axis0806_90, Matrix.det_fin_three] at hdet
  simp [Flt.toRat] at hdet
  norm_num at hdet

/-- C10 refuted as stated, in `double`: the axis `axis028096` has computed
`u·u = 1`, yet `Rotation(u, 90) * u` has the first component
`5044031582654957 · 2⁻⁵⁴`, one unit in the last place above that of `u`. -/
theorem Rotation_moves_axis_double :
    dot3 axis028096 axis028096 = 1 ∧
    axis028096 0 = Flt.fin 1261007895663739 (-52) ∧
    opMulVec (Rotation unusedTrig unusedTrig axis028096 90) axis028096 0
      = Flt.fin 5044031582654957 (-54) ∧
    opMulVec (Rotation unusedTrig unusedTrig axis028096 90) axis028096 ≠ axis028096 := by
  decide!

/-- C11 refuted as stated, in `double`: for the axis `(1e10, 0, 0)` and the
angle 0 the entry `(0, 0)` of the rotation block is `1e20 + (1 - 1e20) = 0`,
so the result is not the identity transform. -/
theorem Rotation_zero_ne_Identity_double :
    (Rotation unusedTrig unusedTrig ![(1e10 : Flt binary64), 0, 0] 0).rot_ 0 0 = 0 ∧
    Rotation unusedTrig unusedTrig ![(1e10 : Flt binary64), 0, 0] 0 ≠ Identity := by
  decide!

/-- C12 refuted as stated, in `float`: with the rotation about `UnitX` by 90,
the translation axis `(2, 0, 0)` and the distance `3.0e38` the product
`delta * d` overflows, both vectors are `(∞, NaN, NaN)`, and the check
`s == T.GetTranslation()` fails. -/
theorem compositionCheck_fails_float :
    (compositionScenario unusedTrig unusedTrig (UnitX : vec3 (Flt binary32)) 90
      ![2, 0, 0] 3.0e38).2 = ![Flt.inf false, Flt.nan, Flt.nan] ∧
    GetTranslation (compositionScenario unusedTrig unusedTrig (UnitX : vec3 (Flt binary32)) 90
      ![2, 0, 0] 3.0e38).1 = ![Flt.inf false, Flt.nan, Flt.nan] ∧
    compositionCheck unusedTrig unusedTrig (UnitX : vec3 (Flt binary32)) 90
      ![2, 0, 0] 3.0e38 = false := by
  decide!

/-- C13 refuted as stated, in `double`: for the translation by `2 ^ 53` along
`UnitX`, `p = UnitX` and `q = 0`, the sum `1 + 2 ^ 53` rounds to `2 ^ 53`, so
`t ^ p - t ^ q` is `0` while `t * (p - q)` is `UnitX`. -/
theorem point_difference_ne_double :
    opXorVec doubleFarTranslation UnitX - opXorVec doubleFarTranslation 0 = 0 ∧
    opMulVec doubleFarTranslation (UnitX - 0) = UnitX ∧
    opXorVec doubleFarTranslation UnitX - opXorVec doubleFarTranslation 0
      ≠ opMulVec doubleFarTranslation (UnitX - 0) := by
  decide!

/-- C19 refuted as stated, in `float`: the translation `a` by `3.0e38` along
`UnitX` has the identity as rotation block, yet `Invert(a * a)` has the
translation `(-∞, NaN, NaN)` and `Invert(a) * Invert(a)` has `(-∞, 0, 0)`. -/
theorem Invert_opMul_ne_float :
    floatFarTranslation.rot_ = 1 ∧
    mat3Mul floatFarTranslation.rot_ floatFarTranslation.rot_ᵀ = 1 ∧
    (Invert (opMul floatFarTranslation floatFarTranslation)).trans_
      = ![Flt.inf true, Flt.nan, Flt.nan] ∧
    (opMul (Invert floatFarTranslation) (Invert floatFarTranslation)).trans_
      = ![Flt.inf true, 0, 0] ∧
    Invert (opMul floatFarTranslation floatFarTranslation)
      ≠ opMul (Invert floatFarTranslation) (Invert floatFarTranslation) := by
  decide!

/-- C20 refuted as stated, in `double`: the axis `axis0608` has computed
`u·u = 1`, yet the entry `(1, 2)` of the product of two quarter turns is
`-2⁻⁵⁴` where the half turn has `0`, and the product of the quarter turn and
the three-quarter turn is not the identity. -/
theorem Rotation_literal_compose_ne_double :
    dot3 axis0608 axis0608 = 1 ∧
    (opMul (Rotation unusedTrig unusedTrig axis0608 90)
      (Rotation unusedTrig unusedTrig axis0608 90)).rot_ 1 2 = Flt.fin (-1) (-54) ∧
    (Rotation unusedTrig unusedTrig axis0608 180).rot_ 1 2 = 0 ∧
    opMul (Rotation unusedTrig unusedTrig axis0608 90)
      (Rotation unusedTrig unusedTrig axis0608 90)
      ≠ Rotation unusedTrig unusedTrig axis0608 180 ∧
    opMul (Rotation unusedTrig unusedTrig axis0608 90)
      (Rotation unusedTrig unusedTrig axis0608 270) ≠ Identity := by
  decide!

end FloatingPoint

end SE3

end Spatial
